import Mathlib

/-
Verification of the blog recommendation/ranking subsystem.

Shallow embedding of `app/services/recommendation_service.py` and of the
ranking portion of `app/routers/blogs.py` (`search_blogs`):

* Python strings are `List Char` (Unicode codepoints); `str.lower` is modelled
  with `Char.toLower`, which performs the same basic-latin case mapping.
* Python floats are modelled as `ℚ`: every constant in the scorer (0.3, 0.2,
  0.1, 0.01, 0.8, 1.0) and every score combination used by the claims is exact.
* `datetime` values are `ℤ` (seconds); `timedelta.days` is floor division by
  86400, i.e. `Int.fdiv`.
* `dict.get(key, default)` on optional fields is `Option.getD`.
* The sklearn TF-IDF + cosine call is an external library call; it is taken as
  an explicit parameter `tfidf : List Char → List Char → Option ℚ` where
  `none` models the `except:` path (the vectorizer raised) and `some s` models
  a successful `float(similarity)` result.
* Python's `list.sort(key=..., reverse=True)` is a stable sort, descending on
  the key; it is modelled by insertion sort with the relation
  "left argument's key is at least the right argument's key", which is the
  stable descending sort.
-/

namespace BlogRec

/-! ### Characters: the regex `[^a-zA-Z\s]`, Python whitespace, `str.lower` -/

/-- Python's `\s` / `str.split()` whitespace (ASCII subset: space, tab,
newline, carriage return, vertical tab, form feed). -/
def isPySpace (c : Char) : Bool :=
  decide (c.toNat = 32 ∨ c.toNat = 9 ∨ c.toNat = 10 ∨ c.toNat = 13 ∨
          c.toNat = 11 ∨ c.toNat = 12)

/-- The character class `[a-zA-Z]` of the regex in `preprocess_text`. -/
def isLatinAlpha (c : Char) : Bool :=
  decide ((65 ≤ c.toNat ∧ c.toNat ≤ 90) ∨ (97 ≤ c.toNat ∧ c.toNat ≤ 122))

/-- A basic-latin lower case letter `[a-z]`. -/
def isLowerAlpha (c : Char) : Bool :=
  decide (97 ≤ c.toNat ∧ c.toNat ≤ 122)

/-- `text.lower()` (basic-latin case mapping, as `Char.toLower`). -/
def pyLower (l : List Char) : List Char :=
  l.map Char.toLower

/-- `re.sub(r'[^a-zA-Z\s]', '', text)`: deletes every character that is
neither a latin letter nor whitespace. -/
def stripNonAlpha (l : List Char) : List Char :=
  l.filter (fun c => isLatinAlpha c || isPySpace c)

/-! ### `text.split()` and `' '.join(...)` -/

/-- `text.split()`: split on runs of whitespace, producing no empty words. -/
def pySplit : List Char → List (List Char)
  | [] => []
  | c :: t =>
    if isPySpace c then pySplit t
    else (c :: t.takeWhile (fun d => !isPySpace d)) ::
      pySplit (t.dropWhile (fun d => !isPySpace d))
termination_by l => l.length
decreasing_by
  · simp only [List.length_cons]
    omega
  · have h : (t.dropWhile (fun d => !isPySpace d)).length ≤ t.length :=
      (List.dropWhile_sublist _).length_le
    simp only [List.length_cons]
    omega

/-- `' '.join(words)`. -/
def joinWords : List (List Char) → List Char
  | [] => []
  | [w] => w
  | w :: ws => w ++ ' ' :: joinWords ws

/-! ### The recommendation service -/

/-- `self.stop_words` of `BlogRecommendationService.__init__`, in source order
(the source writes a set literal; list membership below agrees with set
membership, including the repeated entry for "the"). -/
def stop_words : List (List Char) :=
  ["a", "an", "and", "are", "as", "at", "be", "by", "for", "from",
   "has", "he", "in", "is", "it", "its", "of", "on", "that", "the",
   "to", "was", "will", "with", "the", "this", "but", "they", "have",
   "had", "what", "said", "each", "which", "she", "do", "how", "their",
   "if", "up", "out", "many", "then", "them", "these", "so", "some",
   "her", "would", "make", "like", "into", "him", "time", "two", "more",
   "go", "no", "way", "could", "my", "than", "first", "been", "call",
   "who", "oil", "sit", "now", "find", "down", "day", "did", "get", "come",
   "made", "may", "part"].map (fun s => s.data)

/-- The word filter of `preprocess_text`:
`word not in self.stop_words and len(word) > 2`. -/
def keepToken (w : List Char) : Bool :=
  decide (w ∉ stop_words) && decide (2 < w.length)

/-- The split-and-filter step of `preprocess_text`. -/
def tokenize (l : List Char) : List (List Char) :=
  (pySplit l).filter keepToken

/-- `BlogRecommendationService.preprocess_text` on a string argument:
```
if not text: return ""
text = text.lower()
text = re.sub(r'[^a-zA-Z\s]', '', text)
words = [w for w in text.split() if w not in self.stop_words and len(w) > 2]
return ' '.join(words)
``` -/
def preprocess_text (text : List Char) : List Char :=
  if text = [] then []
  else joinWords (tokenize (stripNonAlpha (pyLower text)))

/-! ### Dynamic (untyped) view of `preprocess_text`

`preprocess_text` has no type check: it is declared `text: str` but a caller
may hand it any Python value.  The first line `if not text` only tests Python
truthiness, and the next line `text.lower()` raises `AttributeError` for a
non-string.  We model the dynamically typed call with a small Python value
universe. -/

/-- A Python value handed to `preprocess_text` by an arbitrary caller. -/
inductive PyValue where
  | pyNone : PyValue
  | pyStr : List Char → PyValue
  | pyInt : Int → PyValue
deriving DecidableEq

/-- Python truthiness (`bool(v)`). -/
def truthy : PyValue → Bool
  | .pyNone => false
  | .pyStr s => decide (s ≠ [])
  | .pyInt n => decide (n ≠ 0)

/-- The exception raised when `.lower()` is accessed on a non-string. -/
inductive PyError where
  | attributeError : PyError
deriving DecidableEq

/-- `preprocess_text` called with an arbitrary Python value:
`if not text: return ""` succeeds for every falsy value; otherwise
`text.lower()` resolves only on a string and raises `AttributeError`
on every other value. -/
def preprocess_text_dyn (text : PyValue) : Except PyError (List Char) :=
  if truthy text = false then Except.ok []
  else
    match text with
    | PyValue.pyStr s => Except.ok (preprocess_text s)
    | _ => Except.error PyError.attributeError

/-! ### Blog records and the engagement score -/

/-- A blog document as read from the `blogs` collection.  Optional fields model
`blog.get(key, default)`: `none` is a missing key.  Per the data model,
`created_at`, when present, is a `datetime` (seconds, as `ℤ`). -/
structure Blog where
  title : List Char
  content : List Char
  tags : List (List Char)
  published : Option Bool
  created_at : Option Int
  likes_count : Option Int
deriving DecidableEq

/-- The recency part of `calculate_engagement_score`:
`created_at = blog.get('created_at', now)`, `days_old = (now - created_at).days`
(floor division of the age in seconds by 86400), then the 0.3 / 0.2 / 0.1
ladder on `days_old`. -/
def recency_score (blog : Blog) (now : Int) : ℚ :=
  let created_at := blog.created_at.getD now
  let days_old := (now - created_at).fdiv 86400
  if days_old < 1 then 3/10
  else if days_old < 7 then 2/10
  else if days_old < 30 then 1/10
  else 0

/-- The running total of `calculate_engagement_score` just before the final
`min(score, 1.0)`: recency bonus, then `+0.2` if `blog.get('published', False)`,
then `+ min(blog.get("likes_count", 0) * 0.01, 0.3)`. -/
def engagement_sum (blog : Blog) (now : Int) : ℚ :=
  recency_score blog now
    + (if blog.published.getD false then 2/10 else 0)
    + min (((blog.likes_count.getD 0 : Int) : ℚ) * (1/100)) (3/10)

/-- `BlogRecommendationService.calculate_engagement_score`:
the accumulated bonuses, clamped by `min(score, 1.0)`. -/
def calculate_engagement_score (blog : Blog) (now : Int) : ℚ :=
  min (engagement_sum blog now) 1

/-- A blog with its `likes_count` replaced (all other fields fixed); used to
state monotonicity of the engagement score in the like count. -/
def set_likes (blog : Blog) (n : Int) : Blog :=
  { blog with likes_count := some n }

/-! ### Content similarity -/

/-- `BlogRecommendationService.simple_keyword_similarity`, the fallback used
when the TF-IDF call raises:
```
blog_words = set(blog_content.lower().split())
interest_words = set(' '.join(user_interests).lower().split())
if not interest_words: return 0.0
intersection = blog_words.intersection(interest_words)
return len(intersection) / len(interest_words)
``` -/
def simple_keyword_similarity (user_interests : List (List Char))
    (blog_content : List Char) : ℚ :=
  let blog_words := (pySplit (pyLower blog_content)).toFinset
  let interest_words := (pySplit (pyLower (joinWords user_interests))).toFinset
  if interest_words = ∅ then 0
  else ((blog_words ∩ interest_words).card : ℚ) / (interest_words.card : ℚ)

/-- `BlogRecommendationService.calculate_content_similarity`.  The external
sklearn call (`TfidfVectorizer` + `cosine_similarity`) is the parameter
`tfidf`; `none` is the `except:` branch, `some s` a successful result. -/
def calculate_content_similarity (tfidf : List Char → List Char → Option ℚ)
    (user_interests : List (List Char)) (blog_content : List Char)
    (blog_title : List Char) (blog_tags : List (List Char)) : ℚ :=
  match user_interests with
  | [] => 0
  | _ :: _ =>
    let user_profile := joinWords user_interests
    let blog_document := blog_title ++ ' ' :: blog_title ++ ' ' :: blog_content
      ++ ' ' :: joinWords blog_tags ++ ' ' :: joinWords blog_tags
    let user_profile_clean := preprocess_text user_profile
    let blog_document_clean := preprocess_text blog_document
    if user_profile_clean = [] ∨ blog_document_clean = [] then 0
    else
      match tfidf user_profile_clean blog_document_clean with
      | some s => s
      | none => simple_keyword_similarity user_interests blog_document_clean

/-- The per-blog combined score of `get_all_blogs_sorted_by_interest` (the same
formula is inlined in `search_blogs`): with a non-empty interest list,
`content_score * 0.8 + engagement_score * 0.2`; with an empty (or missing) one,
the engagement score alone. -/
def total_score (tfidf : List Char → List Char → Option ℚ)
    (user_interests : List (List Char)) (blog : Blog) (now : Int) : ℚ :=
  match user_interests with
  | [] => calculate_engagement_score blog now
  | _ :: _ =>
    calculate_content_similarity tfidf user_interests blog.content blog.title
      blog.tags * (8/10)
      + calculate_engagement_score blog now * (2/10)

/-! ### Ranking: stable descending sort and pagination -/

/-- `BlogRecommendationResponse`: a blog with its relevance score. -/
structure ScoredBlog where
  blog : Blog
  relevance_score : ℚ
deriving DecidableEq

/-- The sort key order of `recommendations.sort(key=lambda x:
x.relevance_score, reverse=True)`: `a` may stay before `b` exactly when
`a`'s score is at least `b`'s. -/
def scoreRel (a b : ScoredBlog) : Prop :=
  b.relevance_score ≤ a.relevance_score

instance : DecidableRel scoreRel :=
  fun a b => inferInstanceAs (Decidable (b.relevance_score ≤ a.relevance_score))

instance : IsTotal ScoredBlog scoreRel :=
  ⟨fun a b => le_total b.relevance_score a.relevance_score⟩

instance : IsTrans ScoredBlog scoreRel :=
  ⟨fun _ _ _ hab hbc => le_trans hbc hab⟩

/-- Python's `list.sort(key=lambda x: x.relevance_score, reverse=True)`:
a stable sort, descending on the score (ties keep input order).  Modelled by
the stable insertion sort for `scoreRel`. -/
def pySortDesc (l : List ScoredBlog) : List ScoredBlog :=
  List.insertionSort scoreRel l

/-- Python slicing `l[start_idx:end_idx]` for non-negative indices: indices are
clamped to the list, never an error. -/
def pySlice (l : List ScoredBlog) (start_idx end_idx : Nat) : List ScoredBlog :=
  (l.take end_idx).drop start_idx

/-- The scoring / sort / paginate pipeline of
`get_all_blogs_sorted_by_interest` after the corpus has been fetched:
score every blog, stable-sort descending by score, take
`total_count = len(recommendations)`, and slice
`[(page-1)*page_size : (page-1)*page_size + page_size)`. -/
def rank (tfidf : List Char → List Char → Option ℚ) (blogs : List Blog)
    (user_interests : List (List Char)) (now : Int) (page page_size : Nat) :
    List ScoredBlog × Nat :=
  let recommendations :=
    blogs.map (fun blog => ScoredBlog.mk blog (total_score tfidf user_interests blog now))
  let sorted := pySortDesc recommendations
  let total_count := sorted.length
  let start_idx := (page - 1) * page_size
  let end_idx := start_idx + page_size
  (pySlice sorted start_idx end_idx, total_count)

/-! ### Author and interests lookups (per-blog loop bodies) -/

/-- A user document, as consulted for `user.get("username")`: the field may be
missing. -/
structure UserDoc where
  username : Option (List Char)
deriving DecidableEq

/-- `get_all_blogs_sorted_by_interest` builds its response with
`"username": user.get("username") if user else "dd"`. -/
def recommendation_username (user : Option UserDoc) : Option (List Char) :=
  match user with
  | some u => u.username
  | none => some ("dd".data)

/-- `search_blogs` builds its response with
`username = author.get("username") if author else "Unknown"`. -/
def search_username (author : Option UserDoc) : Option (List Char) :=
  match author with
  | some u => u.username
  | none => some ("Unknown".data)

/-- A `user_interests` document: the `interests` field may be missing. -/
structure InterestsDoc where
  interests : Option (List (List Char))
deriving DecidableEq

/-- `search_blogs`:
`user_interests = interests_doc.get("interests", []) if interests_doc else []`.
A failed or missing interests lookup degrades to the empty profile. -/
def search_user_interests (doc : Option InterestsDoc) : List (List Char) :=
  match doc with
  | some d => d.interests.getD []
  | none => []

/-! ### Concrete records used by the stability scenario -/

/-- A concrete published blog (used as B1 of the stability scenario). -/
def blogB1 : Blog :=
  { title := "first".data, content := "alpha".data, tags := [],
    published := some true, created_at := some 0, likes_count := some 0 }

/-- A concrete published blog (used as B2 of the stability scenario). -/
def blogB2 : Blog :=
  { title := "second".data, content := "beta".data, tags := [],
    published := some true, created_at := some 0, likes_count := some 0 }

/-- A concrete published blog (used as B3 of the stability scenario). -/
def blogB3 : Blog :=
  { title := "third".data, content := "gamma".data, tags := [],
    published := some true, created_at := some 0, likes_count := some 0 }

/-! ### Spec-side definitions (for refinement claims) -/

/-- The recency bonus as §4.2 of the spec words it: the bonus ladder on the
age since `created_at`, a missing `created_at` defaulting to `now` (maximal
bonus); "age under 1 day / 7 days / 30 days" read over exact ages in seconds. -/
def recency_bonus_spec (created_at : Option Int) (now : Int) : ℚ :=
  match created_at with
  | none => 3/10
  | some t =>
    if now - t < 86400 then 3/10
    else if now - t < 7 * 86400 then 2/10
    else if now - t < 30 * 86400 then 1/10
    else 0

/-- The engagement score as the spec words it: the sum of the recency bonus,
the published bonus (+0.2) and the capped popularity bonus
`min(likes_count * 0.01, 0.3)`, with final value `min(sum, 1.0)`. -/
def engagement_score_spec (blog : Blog) (now : Int) : ℚ :=
  min (recency_bonus_spec blog.created_at now
      + (if blog.published.getD false then 2/10 else 0)
      + min (((blog.likes_count.getD 0 : Int) : ℚ) * (1/100)) (3/10)) 1

/-- The shape of every token that `preprocess_text` can emit: longer than two
characters, not a stop word, and made of lower case latin letters only.  Words
of this shape pass through a second `preprocess_text` run unchanged. -/
def goodWord (w : List Char) : Prop :=
  2 < w.length ∧ w ∉ stop_words ∧ ∀ c ∈ w, isLowerAlpha c = true

end BlogRec

namespace BlogRec

/-! ### Character-level facts about `Char.toLower` -/

theorem char_toNat_ofNat_valid (n : Nat) (h : n.isValidChar) :
    (Char.ofNat n).toNat = n := by
  unfold Char.ofNat
  rw [dif_pos h]
  simp [Char.ofNatAux, Char.toNat, UInt32.toNat]

theorem toLower_def (c : Char) :
    Char.toLower c
      = if 65 ≤ c.toNat ∧ c.toNat ≤ 90 then Char.ofNat (c.toNat + 32) else c :=
  rfl

/-- `Char.toLower` never produces a basic-latin upper case letter. -/
theorem toLower_not_upper (c : Char) :
    ¬(65 ≤ (Char.toLower c).toNat ∧ (Char.toLower c).toNat ≤ 90) := by
  rw [toLower_def]
  by_cases h : 65 ≤ c.toNat ∧ c.toNat ≤ 90
  · rw [if_pos h]
    have hv : (c.toNat + 32).isValidChar := by
      left
      omega
    rw [char_toNat_ofNat_valid _ hv]
    omega
  · rw [if_neg h]
    exact h

/-- `Char.toLower` fixes every character that is not an upper case latin
letter. -/
theorem toLower_fixed (c : Char) (h : ¬(65 ≤ c.toNat ∧ c.toNat ≤ 90)) :
    Char.toLower c = c := by
  rw [toLower_def, if_neg h]

/-! ### Engagement score lemmas -/

theorem recency_score_eq_spec (blog : Blog) (now : Int) :
    recency_score blog now = recency_bonus_spec blog.created_at now := by
  unfold recency_score recency_bonus_spec
  cases hc : blog.created_at with
  | none => norm_num [Int.zero_fdiv]
  | some t =>
    have hediv : (now - t).fdiv 86400 = (now - t) / 86400 :=
      Int.fdiv_eq_ediv _ (by norm_num)
    simp only [Option.getD_some, hediv,
      Int.ediv_lt_iff_lt_mul (by norm_num : (0:ℤ) < 86400)]
    norm_num

theorem recency_score_le (blog : Blog) (now : Int) :
    recency_score blog now ≤ 3/10 := by
  simp only [recency_score]
  split_ifs <;> norm_num

theorem recency_score_nonneg (blog : Blog) (now : Int) :
    0 ≤ recency_score blog now := by
  simp only [recency_score]
  split_ifs <;> norm_num

/-- `engagement_sum` after replacing the like count: only the popularity term
changes. -/
theorem engagement_sum_set_likes (blog : Blog) (now : Int) (n : Int) :
    engagement_sum (set_likes blog n) now
      = recency_score blog now
        + (if blog.published.getD false then 2/10 else 0)
        + min ((n : ℚ) * (1/100)) (3/10) := rfl

theorem engagement_sum_le (blog : Blog) (now : Int) :
    engagement_sum blog now ≤ 4/5 := by
  unfold engagement_sum
  have h1 := recency_score_le blog now
  have h2 : (if blog.published.getD false then (2:ℚ)/10 else 0) ≤ 2/10 := by
    split_ifs <;> norm_num
  have h3 : min (((blog.likes_count.getD 0 : Int) : ℚ) * (1/100)) (3/10) ≤ 3/10 :=
    min_le_right _ _
  linarith

/-- C3: the engagement score is exactly the spec's sum — a recency bonus on
the age since `created_at` (+0.30 under a day, +0.20 under 7 days, +0.10 under
30 days, else 0; a missing `created_at` defaults to `now`, hence the maximal
bonus), plus +0.20 when published, plus `min(likes_count * 0.01, 0.3)`,
clamped by `min(sum, 1.0)`. -/
theorem C3_engagement_score_matches_spec (blog : Blog) (now : Int) :
    calculate_engagement_score blog now = engagement_score_spec blog now := by
  unfold calculate_engagement_score engagement_score_spec engagement_sum
  rw [recency_score_eq_spec]

/-- C10: the pre-clamp engagement sum never exceeds 0.8 (= 0.30 + 0.20 + 0.30),
so the final `min(sum, 1.0)` clamp never alters the value, the score is at most
0.8, and its weighted contribution `score * 0.2` to a combined score is at most
0.16. -/
theorem C10_engagement_at_most_point_eight (blog : Blog) (now : Int) :
    engagement_sum blog now ≤ 4/5
    ∧ calculate_engagement_score blog now = engagement_sum blog now
    ∧ calculate_engagement_score blog now ≤ 4/5
    ∧ calculate_engagement_score blog now * (2/10) ≤ 16/100 := by
  have hs := engagement_sum_le blog now
  have heq : calculate_engagement_score blog now = engagement_sum blog now :=
    min_eq_left (by linarith)
  refine ⟨hs, heq, ?_, ?_⟩
  · rw [heq]
    exact hs
  · rw [heq]
    nlinarith

/-- C6: with all other fields fixed, the engagement score is monotone
non-decreasing in `likes_count`; once the like count reaches the 0.30 cap
(30 likes) it is constant; and the score never exceeds 1.0. -/
theorem C6_engagement_monotone_in_likes (blog : Blog) (now : Int) (a b : Int)
    (hab : a ≤ b) :
    calculate_engagement_score (set_likes blog a) now
      ≤ calculate_engagement_score (set_likes blog b) now
    ∧ (30 ≤ a →
        calculate_engagement_score (set_likes blog a) now
          = calculate_engagement_score (set_likes blog b) now)
    ∧ calculate_engagement_score blog now ≤ 1 := by
  have hrecga : recency_score (set_likes blog a) now = recency_score blog now := rfl
  have hrecgb : recency_score (set_likes blog b) now = recency_score blog now := rfl
  have hcast : ((a : ℚ)) ≤ (b : ℚ) := by exact_mod_cast hab
  refine ⟨?_, ?_, min_le_right _ _⟩
  · unfold calculate_engagement_score
    rw [engagement_sum_set_likes, engagement_sum_set_likes]
    apply min_le_min _ le_rfl
    apply add_le_add_left
    exact min_le_min (by linarith) le_rfl
  · intro ha
    have hb : (30 : Int) ≤ b := le_trans ha hab
    have hqa : (3/10 : ℚ) ≤ (a : ℚ) * (1/100) := by
      have h30 : (30 : ℚ) ≤ (a : ℚ) := by exact_mod_cast ha
      linarith
    have hqb : (3/10 : ℚ) ≤ (b : ℚ) * (1/100) := by
      have h30 : (30 : ℚ) ≤ (b : ℚ) := by exact_mod_cast hb
      linarith
    unfold calculate_engagement_score
    rw [engagement_sum_set_likes, engagement_sum_set_likes,
      min_eq_right hqa, min_eq_right hqb]

/-- C6 witness: the monotonicity theorem applied at a concrete blog with
like counts 30 and 45. -/
theorem C6_engagement_monotone_in_likes_witness :
    calculate_engagement_score (set_likes blogB1 30) 0
      ≤ calculate_engagement_score (set_likes blogB1 45) 0
    ∧ (30 ≤ (30 : Int) →
        calculate_engagement_score (set_likes blogB1 30) 0
          = calculate_engagement_score (set_likes blogB1 45) 0)
    ∧ calculate_engagement_score blogB1 0 ≤ 1 :=
  C6_engagement_monotone_in_likes blogB1 0 30 45 (by norm_num)

/-! ### Fallback lookups (C7) -/

/-- C7: in `get_all_blogs_sorted_by_interest` a failed author lookup is
substituted with the literal `"dd"`, not `"Unknown"`; `search_blogs`
substitutes `"Unknown"` and degrades a missing interests document to the empty
profile.  This evaluates the embedded code at the failing input. -/
theorem C7_failed_author_lookup_yields_dd :
    recommendation_username none = some ("dd".data)
    ∧ recommendation_username none ≠ some ("Unknown".data)
    ∧ search_username none = some ("Unknown".data)
    ∧ search_user_interests none = [] := by
  refine ⟨rfl, ?_, rfl, rfl⟩
  decide

/-! ### The dynamically typed normalizer call (C8) -/

/-- C8 counterexample: the truthy non-string `5` is not treated as an empty
string — the `.lower()` attribute access raises. -/
theorem C8_truthy_nonstring_raises :
    preprocess_text_dyn (PyValue.pyInt 5) = Except.error PyError.attributeError := by
  rfl

/-- C8 (amended): a falsy non-string value (such as `None` or `0`) is treated
as the empty string, but a truthy non-string raises `AttributeError` from the
`text.lower()` attribute access rather than returning `""`. -/
theorem C8_nonstring_behavior (v : PyValue) (hns : ∀ s, v ≠ PyValue.pyStr s) :
    (truthy v = false → preprocess_text_dyn v = Except.ok [])
    ∧ (truthy v = true → preprocess_text_dyn v = Except.error PyError.attributeError) := by
  constructor
  · intro hf
    simp [preprocess_text_dyn, hf]
  · intro ht
    cases v with
    | pyNone => simp [truthy] at ht
    | pyStr s => exact absurd rfl (hns s)
    | pyInt n => simp [preprocess_text_dyn, ht]

/-- C8 witness: the amended behaviour evaluated at the falsy non-string
`None`. -/
theorem C8_nonstring_behavior_witness :
    truthy PyValue.pyNone = false
    ∧ preprocess_text_dyn PyValue.pyNone = Except.ok [] :=
  ⟨rfl, (C8_nonstring_behavior PyValue.pyNone
    (fun _ h => PyValue.noConfusion h)).1 rfl⟩

/-! ### Empty interest profile (C4) -/

/-- C4: with an empty interest list the content similarity is exactly 0 and
the combined score is exactly the engagement score. -/
theorem C4_empty_interests_pure_engagement
    (tfidf : List Char → List Char → Option ℚ) (blog : Blog) (now : Int)
    (blog_content blog_title : List Char) (blog_tags : List (List Char)) :
    calculate_content_similarity tfidf [] blog_content blog_title blog_tags = 0
    ∧ total_score tfidf [] blog now = calculate_engagement_score blog now :=
  ⟨rfl, rfl⟩

/-! ### Stable ranking (C1) and pagination (C2) -/

/-- C1: the ranking sort is a permutation of its input, descending in the
relevance score, and stable — two blogs with equal scores keep their input
order; in particular [B1(0.5), B2(0.5), B3(0.9)] ranks as [B3, B1, B2]. -/
theorem C1_sort_stable_descending :
    (∀ l : List ScoredBlog,
        (pySortDesc l).Perm l
        ∧ List.Sorted scoreRel (pySortDesc l)
        ∧ ∀ a b : ScoredBlog, a.relevance_score = b.relevance_score →
            [a, b].Sublist l → [a, b].Sublist (pySortDesc l))
    ∧ pySortDesc [ScoredBlog.mk blogB1 (1/2), ScoredBlog.mk blogB2 (1/2),
        ScoredBlog.mk blogB3 (9/10)]
      = [ScoredBlog.mk blogB3 (9/10), ScoredBlog.mk blogB1 (1/2),
        ScoredBlog.mk blogB2 (1/2)] := by
  constructor
  · intro l
    refine ⟨List.perm_insertionSort scoreRel l,
      List.sorted_insertionSort scoreRel l, ?_⟩
    intro a b hab hsub
    exact List.pair_sublist_insertionSort (le_of_eq hab.symm) hsub
  · norm_num [pySortDesc, List.insertionSort, List.orderedInsert, scoreRel]

/-- C2: ranking returns the slice
`[(page-1)*page_size, (page-1)*page_size + page_size)` of the full sorted
sequence, `total_count` is the full pre-slice length (independent of the
page), and a page beyond the data yields the empty slice, not an error. -/
theorem C2_pagination_law (tfidf : List Char → List Char → Option ℚ)
    (blogs : List Blog) (user_interests : List (List Char)) (now : Int)
    (page page_size : Nat) (hp : 1 ≤ page) (hps : 1 ≤ page_size) :
    (rank tfidf blogs user_interests now page page_size).2 = blogs.length
    ∧ (rank tfidf blogs user_interests now page page_size).1
        = ((pySortDesc (blogs.map (fun blog =>
            ScoredBlog.mk blog (total_score tfidf user_interests blog now)))).drop
            ((page - 1) * page_size)).take page_size
    ∧ (blogs.length ≤ (page - 1) * page_size →
        (rank tfidf blogs user_interests now page page_size).1 = []) := by
  refine ⟨?_, ?_, ?_⟩
  · simp [rank, pySortDesc, List.length_insertionSort]
  · simp only [rank, pySlice, List.drop_take, Nat.add_sub_cancel_left]
  · intro h
    simp only [rank, pySlice]
    apply List.drop_eq_nil_of_le
    have hlen : (pySortDesc (blogs.map (fun blog =>
        ScoredBlog.mk blog (total_score tfidf user_interests blog now)))).length
        = blogs.length := by
      simp [pySortDesc, List.length_insertionSort]
    simp only [List.length_take, hlen]
    omega

/-- C2 witness: the pagination law at a concrete two-blog corpus, page 2 of
size 1. -/
theorem C2_pagination_law_witness :
    (rank (fun _ _ => none) [blogB1, blogB2] [] 0 2 1).2
      = ([blogB1, blogB2] : List Blog).length
    ∧ (rank (fun _ _ => none) [blogB1, blogB2] [] 0 2 1).1
        = ((pySortDesc (([blogB1, blogB2] : List Blog).map (fun blog =>
            ScoredBlog.mk blog (total_score (fun _ _ => none) [] blog 0)))).drop
            ((2 - 1) * 1)).take 1
    ∧ (([blogB1, blogB2] : List Blog).length ≤ (2 - 1) * 1 →
        (rank (fun _ _ => none) [blogB1, blogB2] [] 0 2 1).1 = []) :=
  C2_pagination_law (fun _ _ => none) [blogB1, blogB2] [] 0 2 1
    (by norm_num) (by norm_num)

/-! ### Content similarity is deterministic and in [0, 1] (C5) -/

theorem simple_keyword_similarity_bounds (user_interests : List (List Char))
    (blog_content : List Char) :
    0 ≤ simple_keyword_similarity user_interests blog_content
    ∧ simple_keyword_similarity user_interests blog_content ≤ 1 := by
  simp only [simple_keyword_similarity]
  split_ifs with h
  · norm_num
  · have hpos :
        (0:ℚ) < ((pySplit (pyLower (joinWords user_interests))).toFinset.card : ℚ) := by
      have hc := Finset.card_pos.mpr (Finset.nonempty_iff_ne_empty.mpr h)
      exact_mod_cast hc
    constructor
    · positivity
    · rw [div_le_one hpos]
      have hsub : (pySplit (pyLower blog_content)).toFinset
            ∩ (pySplit (pyLower (joinWords user_interests))).toFinset
          ⊆ (pySplit (pyLower (joinWords user_interests))).toFinset :=
        Finset.inter_subset_right
      have hcard := Finset.card_le_card hsub
      exact_mod_cast hcard

/-- C5: with a non-empty interest profile, two identical calls to the content
similarity agree (the scorer keeps no hidden state), and — provided the
external TF-IDF cosine call only returns values in [0, 1], which holds for
cosine similarity of non-negative TF-IDF weight vectors — the result lies in
[0, 1]; the keyword-overlap fallback is bounded unconditionally. -/
theorem C5_similarity_deterministic_bounded
    (tfidf : List Char → List Char → Option ℚ)
    (htf : ∀ d1 d2 q, tfidf d1 d2 = some q → 0 ≤ q ∧ q ≤ 1)
    (user_interests : List (List Char)) (hne : user_interests ≠ [])
    (blog_content blog_title : List Char) (blog_tags : List (List Char)) :
    calculate_content_similarity tfidf user_interests blog_content blog_title blog_tags
      = calculate_content_similarity tfidf user_interests blog_content blog_title blog_tags
    ∧ 0 ≤ calculate_content_similarity tfidf user_interests blog_content blog_title blog_tags
    ∧ calculate_content_similarity tfidf user_interests blog_content blog_title blog_tags ≤ 1 := by
  refine ⟨rfl, ?_⟩
  cases user_interests with
  | nil => exact absurd rfl hne
  | cons i is =>
    simp only [calculate_content_similarity]
    split_ifs with h
    · norm_num
    · cases htfeq : tfidf
        (preprocess_text (joinWords (i :: is)))
        (preprocess_text (blog_title ++ ' ' :: blog_title ++ ' ' :: blog_content
          ++ ' ' :: joinWords blog_tags ++ ' ' :: joinWords blog_tags)) with
      | none =>
        simp only [htfeq]
        exact simple_keyword_similarity_bounds _ _
      | some q =>
        simp only [htfeq]
        exact htf _ _ _ htfeq

/-- C5 witness: the theorem applied to a concrete interest profile and blog,
with the TF-IDF call modelled as always raising (fallback path). -/
theorem C5_similarity_deterministic_bounded_witness :
    calculate_content_similarity (fun _ _ => none) ["cooking".data]
        "learn cook while traveling".data "travel cooking tips".data []
      = calculate_content_similarity (fun _ _ => none) ["cooking".data]
        "learn cook while traveling".data "travel cooking tips".data []
    ∧ 0 ≤ calculate_content_similarity (fun _ _ => none) ["cooking".data]
        "learn cook while traveling".data "travel cooking tips".data []
    ∧ calculate_content_similarity (fun _ _ => none) ["cooking".data]
        "learn cook while traveling".data "travel cooking tips".data [] ≤ 1 :=
  C5_similarity_deterministic_bounded (fun _ _ => none)
    (fun _ _ _ h => Option.noConfusion h) ["cooking".data]
    (List.cons_ne_nil _ _) "learn cook while traveling".data
    "travel cooking tips".data []

/-! ### `takeWhile` / `dropWhile` helpers for the split round trip -/

theorem takeWhile_all {α : Type} {p : α → Bool} :
    ∀ (xs : List α), (∀ x ∈ xs, p x = true) → xs.takeWhile p = xs
  | [], _ => rfl
  | x :: xs, h => by
    rw [List.takeWhile_cons, if_pos (h x (List.mem_cons_self x xs)),
      takeWhile_all xs (fun y hy => h y (List.mem_cons_of_mem x hy))]

theorem dropWhile_all {α : Type} {p : α → Bool} :
    ∀ (xs : List α), (∀ x ∈ xs, p x = true) → xs.dropWhile p = []
  | [], _ => rfl
  | x :: xs, h => by
    rw [List.dropWhile_cons, if_pos (h x (List.mem_cons_self x xs)),
      dropWhile_all xs (fun y hy => h y (List.mem_cons_of_mem x hy))]

theorem takeWhile_append_all {α : Type} {p : α → Bool} :
    ∀ (xs ys : List α), (∀ x ∈ xs, p x = true) →
      (xs ++ ys).takeWhile p = xs ++ ys.takeWhile p
  | [], _, _ => rfl
  | x :: xs, ys, h => by
    rw [List.cons_append, List.takeWhile_cons,
      if_pos (h x (List.mem_cons_self x xs)),
      takeWhile_append_all xs ys (fun y hy => h y (List.mem_cons_of_mem x hy)),
      List.cons_append]

theorem dropWhile_append_all {α : Type} {p : α → Bool} :
    ∀ (xs ys : List α), (∀ x ∈ xs, p x = true) →
      (xs ++ ys).dropWhile p = ys.dropWhile p
  | [], _, _ => rfl
  | x :: xs, ys, h => by
    rw [List.cons_append, List.dropWhile_cons,
      if_pos (h x (List.mem_cons_self x xs)),
      dropWhile_append_all xs ys (fun y hy => h y (List.mem_cons_of_mem x hy))]

/-! ### `pySplit` facts -/

theorem pySplit_nil : pySplit [] = [] := by
  simp [pySplit]

theorem pySplit_cons_space (c : Char) (t : List Char) (hc : isPySpace c = true) :
    pySplit (c :: t) = pySplit t := by
  rw [pySplit, if_pos hc]

theorem pySplit_cons_word (c : Char) (t : List Char) (hc : isPySpace c = false) :
    pySplit (c :: t)
      = (c :: t.takeWhile (fun d => !isPySpace d))
        :: pySplit (t.dropWhile (fun d => !isPySpace d)) := by
  rw [pySplit, if_neg (by rw [hc]; exact Bool.false_ne_true)]

/-- Every word produced by `pySplit` is non-empty and made of non-whitespace
characters of the input. -/
theorem pySplit_sound (l : List Char) :
    ∀ w ∈ pySplit l, w ≠ [] ∧ ∀ c ∈ w, c ∈ l ∧ isPySpace c = false := by
  induction l using pySplit.induct with
  | case1 =>
    intro w hw
    simp [pySplit] at hw
  | case2 c t hc ih =>
    intro w hw
    rw [pySplit, if_pos hc] at hw
    obtain ⟨hne, hmem⟩ := ih w hw
    exact ⟨hne, fun d hd =>
      ⟨List.mem_cons_of_mem c (hmem d hd).1, (hmem d hd).2⟩⟩
  | case3 c t hc ih =>
    intro w hw
    rw [pySplit, if_neg hc] at hw
    rcases List.mem_cons.mp hw with hw1 | hw2
    · subst hw1
      refine ⟨List.cons_ne_nil _ _, ?_⟩
      intro d hd
      rcases List.mem_cons.mp hd with hd1 | hd2
      · subst hd1
        refine ⟨List.mem_cons_self _ _, ?_⟩
        cases hcc : isPySpace d
        · rfl
        · exact absurd hcc hc
      · have hdt : d ∈ t := (List.takeWhile_sublist _).mem hd2
        have hp := List.mem_takeWhile_imp hd2
        refine ⟨List.mem_cons_of_mem c hdt, ?_⟩
        simpa using hp
    · obtain ⟨hne, hmem⟩ := ih w hw2
      refine ⟨hne, ?_⟩
      intro d hd
      obtain ⟨hdm, hds⟩ := hmem d hd
      exact ⟨List.mem_cons_of_mem c ((List.dropWhile_sublist _).mem hdm), hds⟩

/-- Splitting a space-joined list of non-empty, space-free words recovers
exactly the words: the round trip behind idempotence of the normalizer. -/
theorem pySplit_joinWords :
    ∀ (ws : List (List Char)),
      (∀ w ∈ ws, w ≠ [] ∧ ∀ c ∈ w, isPySpace c = false) →
      pySplit (joinWords ws) = ws
  | [], _ => pySplit_nil
  | [w], h => by
    obtain ⟨hne, hchars⟩ := h w (List.mem_cons_self _ _)
    cases w with
    | nil => exact absurd rfl hne
    | cons c t =>
      have hc : isPySpace c = false := hchars c (List.mem_cons_self _ _)
      have ht : ∀ d ∈ t, (!isPySpace d) = true := by
        intro d hd
        rw [hchars d (List.mem_cons_of_mem c hd)]
        rfl
      show pySplit (c :: t) = [c :: t]
      rw [pySplit_cons_word c t hc, takeWhile_all t ht, dropWhile_all t ht,
        pySplit_nil]
  | w :: w' :: ws, h => by
    obtain ⟨hne, hchars⟩ := h w (List.mem_cons_self _ _)
    cases w with
    | nil => exact absurd rfl hne
    | cons c t =>
      have hc : isPySpace c = false := hchars c (List.mem_cons_self _ _)
      have ht : ∀ d ∈ t, (!isPySpace d) = true := by
        intro d hd
        rw [hchars d (List.mem_cons_of_mem c hd)]
        rfl
      have hrest : pySplit (joinWords (w' :: ws)) = w' :: ws :=
        pySplit_joinWords (w' :: ws)
          (fun u hu => h u (List.mem_cons_of_mem _ hu))
      show pySplit ((c :: t) ++ ' ' :: joinWords (w' :: ws)) = (c :: t) :: w' :: ws
      rw [List.cons_append, pySplit_cons_word c _ hc,
        takeWhile_append_all t _ ht, dropWhile_append_all t _ ht,
        List.takeWhile_cons_of_neg (by decide),
        List.dropWhile_cons_of_neg (by decide),
        List.append_nil, pySplit_cons_space ' ' _ rfl, hrest]

/-! ### `joinWords` facts -/

theorem mem_joinWords :
    ∀ (ws : List (List Char)) (c : Char),
      c ∈ joinWords ws → c = ' ' ∨ ∃ w ∈ ws, c ∈ w
  | [], c, hc => absurd hc (List.not_mem_nil c)
  | [w], c, hc => Or.inr ⟨w, List.mem_cons_self _ _, hc⟩
  | w :: w' :: ws, c, hc => by
    rw [show joinWords (w :: w' :: ws) = w ++ ' ' :: joinWords (w' :: ws) from rfl]
      at hc
    rcases List.mem_append.mp hc with h1 | h2
    · exact Or.inr ⟨w, List.mem_cons_self _ _, h1⟩
    · rcases List.mem_cons.mp h2 with h3 | h4
      · exact Or.inl h3
      · rcases mem_joinWords (w' :: ws) c h4 with h5 | ⟨u, hu, hcu⟩
        · exact Or.inl h5
        · exact Or.inr ⟨u, List.mem_cons_of_mem w hu, hcu⟩

theorem joinWords_ne_nil (w : List Char) (ws : List (List Char)) (hw : w ≠ []) :
    joinWords (w :: ws) ≠ [] := by
  cases ws with
  | nil => exact hw
  | cons w' ws' =>
    show w ++ ' ' :: joinWords (w' :: ws') ≠ []
    simp

/-! ### Tokens emitted by the normalizer are good words -/

theorem tokenize_good (x : List Char) :
    ∀ w ∈ tokenize (stripNonAlpha (pyLower x)), goodWord w := by
  intro w hw
  unfold tokenize at hw
  rw [List.mem_filter] at hw
  obtain ⟨hsplit, hkeep⟩ := hw
  unfold keepToken at hkeep
  rw [Bool.and_eq_true, decide_eq_true_iff, decide_eq_true_iff] at hkeep
  obtain ⟨hnstop, hlen⟩ := hkeep
  obtain ⟨hne, hmem⟩ := pySplit_sound _ w hsplit
  refine ⟨hlen, hnstop, ?_⟩
  intro c hc
  obtain ⟨hcs, hcns⟩ := hmem c hc
  unfold stripNonAlpha at hcs
  rw [List.mem_filter] at hcs
  obtain ⟨hclow, halpha⟩ := hcs
  rw [Bool.or_eq_true] at halpha
  unfold pyLower at hclow
  rw [List.mem_map] at hclow
  obtain ⟨c₀, _, hc₀⟩ := hclow
  have hnu := toLower_not_upper c₀
  rw [hc₀] at hnu
  unfold isLowerAlpha
  rw [decide_eq_true_iff]
  rcases halpha with ha | hs
  · unfold isLatinAlpha at ha
    rw [decide_eq_true_iff] at ha
    rcases ha with h1 | h2
    · exact absurd h1 hnu
    · exact h2
  · rw [hs] at hcns
    cases hcns

/-! ### The normalizer fixes its own output -/

theorem preprocess_text_fixed (ws : List (List Char))
    (hws : ∀ w ∈ ws, goodWord w) :
    preprocess_text (joinWords ws) = joinWords ws := by
  cases ws with
  | nil => rfl
  | cons w ws' =>
    obtain ⟨hlen, hnstop, hchars⟩ := hws w (List.mem_cons_self _ _)
    have hwne : w ≠ [] := by
      intro h
      rw [h] at hlen
      simp at hlen
    have hne := joinWords_ne_nil w ws' hwne
    unfold preprocess_text
    rw [if_neg hne]
    have hts : ∀ c ∈ joinWords (w :: ws'), Char.toLower c = c := by
      intro c hc
      rcases mem_joinWords _ c hc with hsp | ⟨u, hu, hcu⟩
      · subst hsp
        apply toLower_fixed
        decide
      · have h1 := (hws u hu).2.2 c hcu
        unfold isLowerAlpha at h1
        rw [decide_eq_true_iff] at h1
        apply toLower_fixed
        omega
    have hlow : pyLower (joinWords (w :: ws')) = joinWords (w :: ws') := by
      unfold pyLower
      rw [List.map_congr_left hts]
      exact List.map_id' _
    rw [hlow]
    have hstrip : stripNonAlpha (joinWords (w :: ws')) = joinWords (w :: ws') := by
      unfold stripNonAlpha
      rw [List.filter_eq_self]
      intro c hc
      rcases mem_joinWords _ c hc with hsp | ⟨u, hu, hcu⟩
      · subst hsp
        rfl
      · have h1 := (hws u hu).2.2 c hcu
        unfold isLowerAlpha at h1
        rw [decide_eq_true_iff] at h1
        rw [Bool.or_eq_true]
        left
        unfold isLatinAlpha
        rw [decide_eq_true_iff]
        right
        exact h1
    rw [hstrip]
    have hsplit : pySplit (joinWords (w :: ws')) = w :: ws' := by
      apply pySplit_joinWords
      intro u hu
      obtain ⟨hul, _, huc⟩ := hws u hu
      refine ⟨?_, ?_⟩
      · intro h
        rw [h] at hul
        simp at hul
      · intro c hc
        have h1 := huc c hc
        unfold isLowerAlpha at h1
        rw [decide_eq_true_iff] at h1
        unfold isPySpace
        rw [decide_eq_false_iff_not]
        omega
    unfold tokenize
    rw [hsplit]
    rw [List.filter_eq_self.mpr]
    intro u hu
    obtain ⟨hul, hustop, _⟩ := hws u hu
    unfold keepToken
    rw [Bool.and_eq_true, decide_eq_true_iff, decide_eq_true_iff]
    exact ⟨hustop, hul⟩

/-- C9: the text normalizer is idempotent —
`preprocess_text (preprocess_text x) = preprocess_text x` for every string. -/
theorem C9_normalizer_idempotent (x : List Char) :
    preprocess_text (preprocess_text x) = preprocess_text x := by
  by_cases hx : x = []
  · subst hx
    rfl
  · have hPx : preprocess_text x
        = joinWords (tokenize (stripNonAlpha (pyLower x))) := by
      unfold preprocess_text
      rw [if_neg hx]
    rw [hPx]
    exact preprocess_text_fixed _ (tokenize_good x)

end BlogRec
